import Mathlib

/-!
Verification of the confirmation/approval core of `grounded-git-mcp-server`
(`src/grounded_git_mcp/core/confirmations.py`), as a shallow embedding.

Modelling conventions:
* Python `int` is `Int`; Unix timestamps are `Int` seconds.
* The wall clock `_now()` is passed explicitly as a `now : Int` argument to
  every operation that reads it.
* `hashlib.sha256(...).hexdigest()` (`_sha256_text`) is kept abstract as a
  `digest : String → String` parameter; the claims about fingerprints treat
  the digest as injective, which becomes an explicit hypothesis.
* The two files of `FileConfirmationStore` are modelled as pure data:
  `confirmations.json` as an insertion-ordered association list (Python dict
  semantics) from id to serialized record, and `audit.jsonl` as the list of
  its JSON lines.
* `dict[str, Any]` payloads (classification, execution results) are modelled
  by a JSON value type.
-/

namespace GroundedGitMcp

/-- JSON-like values, modelling the `dict[str, Any]` payloads
(`classification`, execution `result`) that the store treats as plain data. -/
inductive JValue where
  | null : JValue
  | bool (b : Bool) : JValue
  | str (s : String) : JValue
  | int (n : Int) : JValue
  | arr (xs : List JValue) : JValue
  | obj (fields : List (String × JValue)) : JValue
deriving Repr

/-- Embeds `_stable_cmd_text(args) = "\n".join(args)`: the stable,
newline-joined command representation used for hashing and auditing. -/
def stable_cmd_text : List String → String
  | [] => ""
  | [s] => s
  | s :: rest => s ++ "\n" ++ stable_cmd_text rest

/-- Embeds `command_hash(args) = _sha256_text(_stable_cmd_text(args))`,
with the SHA-256 hex digest abstracted as `digest`. -/
def command_hash (digest : String → String) (args : List String) : String :=
  digest (stable_cmd_text args)

/-- Embeds `new_confirmation_id(root, args)`:
`_sha256_text(f"{root.resolve()}\n{_now()}\n{_stable_cmd_text(args)}")[:16]`.
`resolvedRoot` stands for the already-resolved absolute path string and
`now` for the current `_now()` second. -/
def new_confirmation_id (digest : String → String) (resolvedRoot : String)
    (now : Int) (args : List String) : String :=
  (digest (resolvedRoot ++ "\n" ++ toString now ++ "\n" ++ stable_cmd_text args)).take 16

/-- Embeds the frozen dataclass `Preconditions`. -/
structure Preconditions where
  expected_head : Option String := none
  expected_branch : Option String := none
  require_clean : Bool := false
  require_no_conflicts : Bool := true
deriving Repr, DecidableEq

/-- Embeds the dataclass `Confirmation`. -/
structure Confirmation where
  confirmation_id : String
  root : String
  args : List String
  classification : JValue
  cmd_hash : String
  created_at : Int
  expires_at : Int
  max_uses : Int := 1
  used : Int := 0
  preconditions : Preconditions := {}
deriving Repr

/-- Embeds `Confirmation.is_expired(self) = _now() > self.expires_at`,
with the clock passed explicitly. -/
def Confirmation.is_expired (c : Confirmation) (now : Int) : Bool :=
  now > c.expires_at

/-- Embeds `Confirmation.can_use(self) =
(not self.is_expired()) and self.used < self.max_uses`. -/
def Confirmation.can_use (c : Confirmation) (now : Int) : Bool :=
  (!(c.is_expired now)) && (c.used < c.max_uses)

/-- The serialized (`asdict` + JSON) form of `Preconditions` as stored in
`confirmations.json`. -/
structure RawPreconditions where
  expected_head : Option String
  expected_branch : Option String
  require_clean : Bool
  require_no_conflicts : Bool
deriving Repr, DecidableEq

/-- The serialized (`asdict` + JSON) form of a `Confirmation` as stored in
`confirmations.json` under its `confirmation_id` key. -/
structure RawConfirmation where
  confirmation_id : String
  root : String
  args : List String
  classification : JValue
  cmd_hash : String
  created_at : Int
  expires_at : Int
  max_uses : Int
  used : Int
  preconditions : RawPreconditions
deriving Repr

/-- Serialization `dataclasses.asdict` on `Preconditions`. -/
def Preconditions.asdict (p : Preconditions) : RawPreconditions :=
  ⟨p.expected_head, p.expected_branch, p.require_clean, p.require_no_conflicts⟩

/-- Serialization `dataclasses.asdict` on a `Confirmation` (recursively
converts the nested `Preconditions`), i.e. the value written into the
durable map by `put`. -/
def Confirmation.asdict (c : Confirmation) : RawConfirmation :=
  ⟨c.confirmation_id, c.root, c.args, c.classification, c.cmd_hash,
   c.created_at, c.expires_at, c.max_uses, c.used, c.preconditions.asdict⟩

/-- The reconstruction performed by `FileConfirmationStore.get`:
`raw["preconditions"] = Preconditions(**(raw.get("preconditions") or {}))`
followed by `Confirmation(**raw)`. -/
def RawConfirmation.reconstruct (raw : RawConfirmation) : Confirmation :=
  { confirmation_id := raw.confirmation_id
    root := raw.root
    args := raw.args
    classification := raw.classification
    cmd_hash := raw.cmd_hash
    created_at := raw.created_at
    expires_at := raw.expires_at
    max_uses := raw.max_uses
    used := raw.used
    preconditions :=
      ⟨raw.preconditions.expected_head, raw.preconditions.expected_branch,
       raw.preconditions.require_clean, raw.preconditions.require_no_conflicts⟩ }

/-- Python-dict lookup `m.get(k)` on an insertion-ordered association list. -/
def dictGet? {α : Type} : List (String × α) → String → Option α
  | [], _ => none
  | (k', v) :: rest, k => if k' == k then some v else dictGet? rest k

/-- Python-dict assignment `m[k] = v`: replaces the value at an existing key
in place, otherwise appends the new binding at the end. -/
def dictInsert {α : Type} : List (String × α) → String → α → List (String × α)
  | [], k, v => [(k, v)]
  | (k', v') :: rest, k, v =>
      if k' == k then (k, v) :: rest else (k', v') :: dictInsert rest k v

/-- One line of `audit.jsonl`: the JSON object with keys `ts`, `action`,
`confirmation_id`, merged with the `extra` payload. -/
structure AuditLine where
  ts : Int
  action : String
  confirmation_id : String
  extra : List (String × JValue)
deriving Repr

/-- The observable state of a `FileConfirmationStore`: the durable map
`confirmations.json` plus the append-only `audit.jsonl`. -/
structure FileConfirmationStore where
  db : List (String × RawConfirmation)
  auditLog : List AuditLine
deriving Repr

/-- The state right after `FileConfirmationStore.__init__` on a fresh
repository: an empty durable map (an empty JSON object) and no audit
lines yet. -/
def FileConfirmationStore.init : FileConfirmationStore := ⟨[], []⟩

/-- Embeds `FileConfirmationStore.audit(action, confirmation_id, extra)`:
appends one JSONL line to the audit log. -/
def FileConfirmationStore.audit (s : FileConfirmationStore) (now : Int)
    (action : String) (confirmation_id : String)
    (extra : List (String × JValue)) : FileConfirmationStore :=
  { s with auditLog := s.auditLog ++ [⟨now, action, confirmation_id, extra⟩] }

/-- The durable-map write inside `put` (`data[c.confirmation_id] = asdict(c)`
followed by the atomic `_save`), before the audit append. -/
def FileConfirmationStore.putMapWrite (s : FileConfirmationStore)
    (c : Confirmation) : FileConfirmationStore :=
  { s with db := dictInsert s.db c.confirmation_id c.asdict }

/-- Embeds `FileConfirmationStore.put(c)`: persist the record, then append a
`"proposed"` audit line carrying the classification. -/
def FileConfirmationStore.put (s : FileConfirmationStore) (now : Int)
    (c : Confirmation) : FileConfirmationStore :=
  (s.putMapWrite c).audit now "proposed" c.confirmation_id
    [("classification", c.classification)]

/-- Embeds `FileConfirmationStore.get(confirmation_id)`: read-only lookup that
reconstructs the nested `Preconditions`, or `none` for an unknown id. -/
def FileConfirmationStore.get (s : FileConfirmationStore)
    (confirmation_id : String) : Option Confirmation :=
  (dictGet? s.db confirmation_id).map RawConfirmation.reconstruct

/-- The durable-map write inside `mark_used`
(`raw["used"] = int(raw.get("used", 0)) + 1; data[...] = raw; _save`),
before the audit append; a no-op when the id is absent. -/
def FileConfirmationStore.markMapWrite (s : FileConfirmationStore)
    (c : Confirmation) : FileConfirmationStore :=
  match dictGet? s.db c.confirmation_id with
  | none => s
  | some raw =>
      { s with db := dictInsert s.db c.confirmation_id { raw with used := raw.used + 1 } }

/-- Embeds `FileConfirmationStore.mark_used(c, result)`: increment the stored
record's `used` counter and append an `"executed"` audit line; silently
returns when the id is not in the durable map. -/
def FileConfirmationStore.mark_used (s : FileConfirmationStore) (now : Int)
    (c : Confirmation) (result : JValue) : FileConfirmationStore :=
  match dictGet? s.db c.confirmation_id with
  | none => s
  | some raw =>
      ({ s with db := dictInsert s.db c.confirmation_id { raw with used := raw.used + 1 } }).audit
        now "executed" c.confirmation_id [("result", result)]

/-- Modelled from the spec: the Approval Orchestrator's `propose` step
(`tools/approval_flow.py`, not present under `src/`), restricted to how it
builds the `Confirmation` record (spec §4.4 steps 3–5): `cmd_hash =
fingerprint(args)`, `confirmation_id = new_id(root, args)`, preconditions
from the call's guards with `require_no_conflicts = True`, `created_at =
now()`, `expires_at = created_at + lifetime`, `max_uses = 1`, `used = 0`. -/
def propose (digest : String → String) (resolvedRoot : String) (now : Int)
    (lifetime : Int) (args : List String) (classification : JValue)
    (expected_branch : Option String) (require_clean : Bool)
    (expected_head : Option String) : Confirmation :=
  { confirmation_id := new_confirmation_id digest resolvedRoot now args
    root := resolvedRoot
    args := args
    classification := classification
    cmd_hash := command_hash digest args
    created_at := now
    expires_at := now + lifetime
    max_uses := 1
    used := 0
    preconditions :=
      { expected_head := expected_head
        expected_branch := expected_branch
        require_clean := require_clean
        require_no_conflicts := true } }

/-- One public store operation, for reasoning about sequences of calls. -/
inductive StoreOp where
  | putOp (now : Int) (c : Confirmation) : StoreOp
  | getOp (id : String) : StoreOp
  | markOp (now : Int) (c : Confirmation) (result : JValue) : StoreOp

/-- The state transition of one store operation (`get` is read-only and
leaves the state unchanged). -/
def applyOp (s : FileConfirmationStore) : StoreOp → FileConfirmationStore
  | .putOp now c => s.put now c
  | .getOp _ => s
  | .markOp now c result => s.mark_used now c result

/-- Run a sequence of store operations from a given state. -/
def applyOps (s : FileConfirmationStore) (ops : List StoreOp) : FileConfirmationStore :=
  ops.foldl applyOp s

/-- Discriminator for `put` operations. -/
def StoreOp.isPut : StoreOp → Bool
  | .putOp _ _ => true
  | _ => false

/-- Discriminator for `mark_used` operations. -/
def StoreOp.isMark : StoreOp → Bool
  | .markOp _ _ _ => true
  | _ => false

/-- Holds when every `mark_used` call in the sequence finds its
`confirmation_id` in the durable map at the moment it runs. -/
def marksAllHit : FileConfirmationStore → List StoreOp → Bool
  | _, [] => true
  | s, op :: rest =>
      (match op with
       | .markOp _ c _ => (dictGet? s.db c.confirmation_id).isSome
       | _ => true) && marksAllHit (applyOp s op) rest

/-- Whether the audit log contains a `"proposed"` line for the given id. -/
def proposedIn (log : List AuditLine) (id : String) : Bool :=
  log.any (fun a => a.action == "proposed" && a.confirmation_id == id)

/-- The store states reachable from a fresh store by completed calls and by
calls interrupted between the durable-map write and the audit append (the
atomic tmp-then-replace `_save` means a crash mid-write preserves either the
old or the new map, both of which are covered). -/
inductive Reach : FileConfirmationStore → Prop where
  | initial : Reach FileConfirmationStore.init
  | put_complete {s : FileConfirmationStore} (now : Int) (c : Confirmation) :
      Reach s → Reach (s.put now c)
  | put_interrupted {s : FileConfirmationStore} (c : Confirmation) :
      Reach s → Reach (s.putMapWrite c)
  | mark_complete {s : FileConfirmationStore} (now : Int) (c : Confirmation) (result : JValue) :
      Reach s → Reach (s.mark_used now c result)
  | mark_interrupted {s : FileConfirmationStore} (c : Confirmation) :
      Reach s → Reach (s.markMapWrite c)

/-- Character-level newline join, mirroring `stable_cmd_text` on the
underlying character lists; used to reason about fingerprint ambiguity. -/
def joinNl : List (List Char) → List Char
  | [] => []
  | [l] => l
  | l :: rest => l ++ '\n' :: joinNl rest

/-- A concrete confirmation record (fresh, single-use) for instantiating the
theorems at explicit inputs. -/
def cEx : Confirmation :=
  { confirmation_id := "x"
    root := "/repo"
    args := ["commit", "-m", "fix"]
    classification := JValue.obj [("risk", JValue.str "high")]
    cmd_hash := "h"
    created_at := 0
    expires_at := 100 }

/-- A concrete operation sequence: one proposal followed by one execution of
the same confirmation. -/
def opsEx : List StoreOp :=
  [StoreOp.putOp 0 cEx, StoreOp.markOp 1 cEx JValue.null]

/-- The concrete record after its single use has been consumed. -/
def cSpent : Confirmation := { cEx with used := 1 }

/- ------------------------------------------------------------------ -/
/- Helper lemmas about the embedded store primitives.                  -/
/- ------------------------------------------------------------------ -/

/-- `get`'s reconstruction inverts `asdict` serialization exactly. -/
theorem reconstruct_asdict (c : Confirmation) : c.asdict.reconstruct = c := rfl

/-- Lookup after a Python-dict assignment: the assigned key maps to the new
value, every other key is untouched. -/
theorem dictGet?_dictInsert {α : Type} (m : List (String × α)) (k q : String) (v : α) :
    dictGet? (dictInsert m k v) q = if k == q then some v else dictGet? m q := by
  induction m with
  | nil => rfl
  | cons p rest ih =>
    obtain ⟨k', v'⟩ := p
    simp only [dictInsert]
    by_cases h : k' = k
    · subst h
      by_cases hq : k' = q <;> simp [dictGet?, hq]
    · have hb : (k' == k) = false := by simp [h]
      rw [hb]
      simp only [Bool.false_eq_true, if_false, dictGet?, ih]
      by_cases hq : k' = q
      · subst hq
        have hkq : (k == k') = false := beq_eq_false_iff_ne.mpr (fun e => h e.symm)
        simp [hkq]
      · simp [hq]

/-- Lookup of the key just assigned. -/
theorem dictGet?_dictInsert_self {α : Type} (m : List (String × α)) (k : String) (v : α) :
    dictGet? (dictInsert m k v) k = some v := by
  simp [dictGet?_dictInsert]

/-- A dict assignment never removes a present key. -/
theorem dictGet?_dictInsert_isSome {α : Type} (m : List (String × α)) (k q : String) (v : α)
    (h : (dictGet? m q).isSome = true) :
    (dictGet? (dictInsert m k v) q).isSome = true := by
  rw [dictGet?_dictInsert]
  by_cases hk : (k == q) = true <;> simp [hk, h]

/-- The audit line appended by `put`. -/
theorem put_auditLog (s : FileConfirmationStore) (now : Int) (c : Confirmation) :
    (s.put now c).auditLog
      = s.auditLog
          ++ [⟨now, "proposed", c.confirmation_id, [("classification", c.classification)]⟩] := rfl

/-- The durable-map effect of `put`. -/
theorem put_db (s : FileConfirmationStore) (now : Int) (c : Confirmation) :
    (s.put now c).db = dictInsert s.db c.confirmation_id c.asdict := rfl

/-- `mark_used` on a present id: increments the stored `used` and appends the
`"executed"` audit line. -/
theorem mark_used_of_found (s : FileConfirmationStore) (now : Int) (c : Confirmation)
    (result : JValue) (raw : RawConfirmation)
    (h : dictGet? s.db c.confirmation_id = some raw) :
    s.mark_used now c result =
      ⟨dictInsert s.db c.confirmation_id { raw with used := raw.used + 1 },
       s.auditLog ++ [⟨now, "executed", c.confirmation_id, [("result", result)]⟩]⟩ := by
  unfold FileConfirmationStore.mark_used
  rw [h]
  rfl

/-- `mark_used` on an absent id: the early `return`. -/
theorem mark_used_of_missing (s : FileConfirmationStore) (now : Int) (c : Confirmation)
    (result : JValue) (h : dictGet? s.db c.confirmation_id = none) :
    s.mark_used now c result = s := by
  unfold FileConfirmationStore.mark_used
  rw [h]

/- ------------------------------------------------------------------ -/
/- Claim theorems.                                                     -/
/- ------------------------------------------------------------------ -/

/-- C2: `is_expired()` returns true iff the clock is strictly past
`expires_at`; `can_use()` returns true iff the record is not expired and
`used < max_uses`; hence an expired record is never usable regardless of
`used`, and a record with `used >= max_uses` is never usable regardless of
expiry. -/
theorem expiry_and_eligibility (c : Confirmation) (now : Int) :
    (c.is_expired now = true ↔ now > c.expires_at)
  ∧ (c.can_use now = true ↔ (c.is_expired now = false ∧ c.used < c.max_uses))
  ∧ (c.is_expired now = true → c.can_use now = false)
  ∧ (c.max_uses ≤ c.used → c.can_use now = false) := by
  refine ⟨?_, ?_, ?_, ?_⟩ <;>
    simp [Confirmation.is_expired, Confirmation.can_use] <;> omega

/-- Witness for C2 at concrete records: an exhausted record is unusable, and
a fresh one's eligibility follows the combined predicate. -/
theorem expiry_and_eligibility_witness :
    cSpent.can_use 0 = false
  ∧ (cEx.is_expired 101 = true → cEx.can_use 101 = false)
  ∧ (cEx.can_use 5 = true ↔ (cEx.is_expired 5 = false ∧ cEx.used < cEx.max_uses)) :=
  ⟨(expiry_and_eligibility cSpent 0).2.2.2 (by decide),
   (expiry_and_eligibility cEx 101).2.2.1,
   (expiry_and_eligibility cEx 5).2.1⟩

/-- C9: `mark_used` for a `confirmation_id` absent from the durable map is a
silent no-op: the store (durable map and audit log) is returned unchanged
and no error is signalled. -/
theorem mark_used_missing_id_noop (s : FileConfirmationStore) (now : Int)
    (c : Confirmation) (result : JValue)
    (h : dictGet? s.db c.confirmation_id = none) :
    s.mark_used now c result = s :=
  mark_used_of_missing s now c result h

/-- Witness for C9: marking an unknown confirmation on the fresh store
changes nothing. -/
theorem mark_used_missing_id_noop_witness :
    FileConfirmationStore.init.mark_used 0 cEx JValue.null = FileConfirmationStore.init :=
  mark_used_missing_id_noop FileConfirmationStore.init 0 cEx JValue.null rfl

/-- C3: immediately after `put c`, `get c.confirmation_id` returns a record
equal to `c` in every field, including the nested `Preconditions`; a record
built by `propose` (modelled from the spec) has `cmd_hash = fingerprint(args)`
and `used = 0`. -/
theorem put_get_roundtrip (s : FileConfirmationStore) (now : Int) (c : Confirmation)
    (digest : String → String) (resolvedRoot : String) (lifetime : Int)
    (args : List String) (classification : JValue)
    (expected_branch : Option String) (require_clean : Bool)
    (expected_head : Option String) :
    ((s.put now c).get c.confirmation_id = some c)
  ∧ ((propose digest resolvedRoot now lifetime args classification
        expected_branch require_clean expected_head).cmd_hash
      = command_hash digest args)
  ∧ ((propose digest resolvedRoot now lifetime args classification
        expected_branch require_clean expected_head).used = 0) := by
  refine ⟨?_, rfl, rfl⟩
  unfold FileConfirmationStore.get
  rw [put_db]
  simp [dictGet?_dictInsert_self, reconstruct_asdict]

/-- C7: every store operation only appends to the audit log: the previous
audit log is a prefix of the new one for `put`, `get`, `mark_used` and the
`audit` primitive itself. -/
theorem audit_append_only (s : FileConfirmationStore) (now : Int)
    (action cid : String) (extra : List (String × JValue)) :
    (∀ op : StoreOp, s.auditLog <+: (applyOp s op).auditLog)
  ∧ s.auditLog <+: (s.audit now action cid extra).auditLog := by
  constructor
  · intro op
    cases op with
    | putOp now' c => exact ⟨_, rfl⟩
    | getOp i => exact ⟨[], List.append_nil _⟩
    | markOp now' c r =>
      cases h : dictGet? s.db c.confirmation_id with
      | none =>
        show s.auditLog <+: (s.mark_used now' c r).auditLog
        rw [mark_used_of_missing s now' c r h]
      | some raw =>
        show s.auditLog <+: (s.mark_used now' c r).auditLog
        rw [mark_used_of_found s now' c r raw h]
        exact ⟨_, rfl⟩
  · exact ⟨_, rfl⟩

/-- C1: for a stored confirmation with `max_uses = 1` and `used = 0` that is
not expired, one `mark_used` call makes the record returned by `get` satisfy
`used >= max_uses`, so `can_use()` is false at every later (indeed every)
time: the token is permanently ineligible. -/
theorem one_shot_enforcement (s : FileConfirmationStore) (c : Confirmation)
    (raw : RawConfirmation) (now execNow : Int) (result : JValue)
    (hfound : dictGet? s.db c.confirmation_id = some raw)
    (hmax : raw.max_uses = 1) (hused : raw.used = 0)
    (hfresh : raw.reconstruct.is_expired now = false) :
    ∃ c', (s.mark_used execNow c result).get c.confirmation_id = some c'
      ∧ c'.max_uses ≤ c'.used
      ∧ ∀ t : Int, c'.can_use t = false := by
  refine ⟨RawConfirmation.reconstruct { raw with used := raw.used + 1 }, ?_, ?_, ?_⟩
  · rw [mark_used_of_found s execNow c result raw hfound]
    unfold FileConfirmationStore.get
    simp [dictGet?_dictInsert_self]
  · simp [RawConfirmation.reconstruct, hmax, hused]
  · intro t
    simp [Confirmation.can_use, RawConfirmation.reconstruct, hmax, hused]

/-- Witness for C1: propose `cEx` on a fresh store, consume it once, and the
record `get` returns is exhausted and unusable forever. -/
theorem one_shot_enforcement_witness :
    ∃ c', ((FileConfirmationStore.init.put 0 cEx).mark_used 1 cEx JValue.null).get
            cEx.confirmation_id = some c'
      ∧ c'.max_uses ≤ c'.used
      ∧ ∀ t : Int, c'.can_use t = false :=
  one_shot_enforcement (FileConfirmationStore.init.put 0 cEx) cEx cEx.asdict 0 1
    JValue.null rfl rfl rfl (by decide)

/-- C10: `new_confirmation_id` is a pure function of the resolved root, the
current second and the argument vector — two calls with the same three
inputs return the identical id, the first 16 characters of the digest of the
newline-joined seed; consequently a second `put` under the same
`confirmation_id` overwrites the first record, and `get` then returns the
second. -/
theorem confirmation_id_deterministic_and_put_overwrites
    (digest : String → String) (resolvedRoot root₂ : String) (now now₂ : Int)
    (args args₂ : List String) (s : FileConfirmationStore) (t₁ t₂ : Int)
    (c₁ c₂ : Confirmation)
    (hroot : resolvedRoot = root₂) (hnow : now = now₂) (hargs : args = args₂)
    (hid : c₁.confirmation_id = c₂.confirmation_id) :
    (new_confirmation_id digest resolvedRoot now args
       = new_confirmation_id digest root₂ now₂ args₂)
  ∧ (new_confirmation_id digest resolvedRoot now args
       = (digest (resolvedRoot ++ "\n" ++ toString now ++ "\n"
            ++ stable_cmd_text args)).take 16)
  ∧ (((s.put t₁ c₁).put t₂ c₂).get c₁.confirmation_id = some c₂) := by
  subst hroot hnow hargs
  refine ⟨rfl, rfl, ?_⟩
  rw [hid]
  unfold FileConfirmationStore.get
  rw [put_db]
  simp [dictGet?_dictInsert_self, reconstruct_asdict]

/-- Witness for C10: two same-second proposals of the same command in the
same root collide, and the second `put` wins. -/
theorem confirmation_id_deterministic_and_put_overwrites_witness :
    (new_confirmation_id (fun s => s) "/repo" 7 ["push"]
       = new_confirmation_id (fun s => s) "/repo" 7 ["push"])
  ∧ (new_confirmation_id (fun s => s) "/repo" 7 ["push"]
       = ((fun s : String => s) ("/repo" ++ "\n" ++ toString (7 : Int) ++ "\n"
            ++ stable_cmd_text ["push"])).take 16)
  ∧ (((FileConfirmationStore.init.put 0 cEx).put 2 cSpent).get
        cEx.confirmation_id = some cSpent) :=
  confirmation_id_deterministic_and_put_overwrites (fun s => s) "/repo" "/repo" 7 7
    ["push"] ["push"] FileConfirmationStore.init 0 2 cEx cSpent rfl rfl rfl rfl

/-- Counterexample to C4 as stated: a `mark_used` call whose `confirmation_id`
is absent from the durable map appends no audit line at all, so one such
call does not grow the log by one. -/
theorem audit_line_count_counterexample :
    (FileConfirmationStore.init.mark_used 0 cEx JValue.null).auditLog.length = 0
  ∧ ¬ ((FileConfirmationStore.init.mark_used 0 cEx JValue.null).auditLog.length
        = FileConfirmationStore.init.auditLog.length + 1) := by
  exact ⟨rfl, by decide⟩

/-- C4 (amended): every `put` appends exactly one audit line, and every
`mark_used` whose id is present in the durable map at call time appends
exactly one audit line (a `mark_used` on an absent id appends none); hence
after N `put` calls and M such `mark_used` calls the audit log has exactly
N + M more lines. -/
theorem audit_line_count (ops : List StoreOp) (s : FileConfirmationStore)
    (h : marksAllHit s ops = true) :
    (applyOps s ops).auditLog.length
      = s.auditLog.length + ops.countP (fun op => op.isPut)
          + ops.countP (fun op => op.isMark) := by
  induction ops generalizing s with
  | nil => simp [applyOps]
  | cons op rest ih =>
    simp only [marksAllHit, Bool.and_eq_true] at h
    obtain ⟨h1, h2⟩ := h
    have hstep : applyOps s (op :: rest) = applyOps (applyOp s op) rest := rfl
    rw [hstep]
    have hrec := ih (applyOp s op) h2
    cases op with
    | putOp now c =>
      have hlen : (applyOp s (StoreOp.putOp now c)).auditLog.length
          = s.auditLog.length + 1 := by
        show (s.put now c).auditLog.length = _
        rw [put_auditLog, List.length_append]
        rfl
      rw [hrec, hlen]
      simp [List.countP_cons, StoreOp.isPut, StoreOp.isMark]
      omega
    | getOp i =>
      rw [hrec]
      simp [List.countP_cons, StoreOp.isPut, StoreOp.isMark, applyOp]
    | markOp now c r =>
      have h1' : (dictGet? s.db c.confirmation_id).isSome = true := h1
      obtain ⟨raw, hraw⟩ := Option.isSome_iff_exists.1 h1'
      have hlen : (applyOp s (StoreOp.markOp now c r)).auditLog.length
          = s.auditLog.length + 1 := by
        show (s.mark_used now c r).auditLog.length = _
        rw [mark_used_of_found s now c r raw hraw]
        rw [show (FileConfirmationStore.mk
              (dictInsert s.db c.confirmation_id { raw with used := raw.used + 1 })
              (s.auditLog ++ [⟨now, "executed", c.confirmation_id,
                [("result", r)]⟩])).auditLog
            = s.auditLog ++ [⟨now, "executed", c.confirmation_id, [("result", r)]⟩]
          from rfl]
        rw [List.length_append]
        rfl
      rw [hrec, hlen]
      simp [List.countP_cons, StoreOp.isPut, StoreOp.isMark]
      omega

/-- Witness for C4 (amended): from the fresh store, one `put` followed by one
hitting `mark_used` leaves exactly 0 + 1 + 1 = 2 audit lines. -/
theorem audit_line_count_witness :
    (applyOps FileConfirmationStore.init opsEx).auditLog.length
      = FileConfirmationStore.init.auditLog.length
          + opsEx.countP (fun op => op.isPut)
          + opsEx.countP (fun op => op.isMark) :=
  audit_line_count opsEx FileConfirmationStore.init (by decide)

/-- `mark_used` on a present id sets the stored `used` to its old value plus
one. -/
theorem mark_used_increments_found (s : FileConfirmationStore) (now : Int)
    (c : Confirmation) (result : JValue) (raw : RawConfirmation)
    (hfound : dictGet? s.db c.confirmation_id = some raw) :
    (dictGet? (s.mark_used now c result).db c.confirmation_id).map RawConfirmation.used
      = some (raw.used + 1) := by
  rw [mark_used_of_found s now c result raw hfound]
  show (dictGet? (dictInsert s.db c.confirmation_id
      { raw with used := raw.used + 1 }) c.confirmation_id).map RawConfirmation.used = _
  rw [dictGet?_dictInsert_self]
  rfl

/-- One `mark_used` never lowers any stored `used` counter. -/
theorem used_mono_step (s : FileConfirmationStore) (now : Int) (c : Confirmation)
    (result : JValue) (id : String) (u : Int)
    (hu : (dictGet? s.db id).map RawConfirmation.used = some u) :
    ∃ u', (dictGet? (s.mark_used now c result).db id).map RawConfirmation.used = some u'
      ∧ u ≤ u' := by
  cases h : dictGet? s.db c.confirmation_id with
  | none =>
    refine ⟨u, ?_, le_refl u⟩
    rw [mark_used_of_missing s now c result h]
    exact hu
  | some raw =>
    rw [mark_used_of_found s now c result raw h]
    show ∃ u', (dictGet? (dictInsert s.db c.confirmation_id
        { raw with used := raw.used + 1 }) id).map RawConfirmation.used = some u' ∧ u ≤ u'
    rw [dictGet?_dictInsert]
    by_cases hid : c.confirmation_id = id
    · subst hid
      rw [h] at hu
      have hu' : raw.used = u := by simpa using hu
      refine ⟨raw.used + 1, by simp, by omega⟩
    · have hb : (c.confirmation_id == id) = false := beq_eq_false_iff_ne.mpr hid
      rw [hb]
      exact ⟨u, by simpa using hu, le_refl u⟩

/-- Across any `put`-free sequence of store operations, every stored `used`
counter is non-decreasing. -/
theorem used_mono_ops (ops : List StoreOp) (id : String) :
    ∀ (s : FileConfirmationStore) (u : Int),
      (∀ op ∈ ops, op.isPut = false) →
      (dictGet? s.db id).map RawConfirmation.used = some u →
      ∃ u', (dictGet? (applyOps s ops).db id).map RawConfirmation.used = some u'
        ∧ u ≤ u' := by
  induction ops with
  | nil =>
    intro s u _ hu
    exact ⟨u, hu, le_refl u⟩
  | cons op rest ih =>
    intro s u hnoput hu
    have hrest : ∀ op' ∈ rest, op'.isPut = false :=
      fun op' hop' => hnoput op' (List.mem_cons_of_mem _ hop')
    have hstep : applyOps s (op :: rest) = applyOps (applyOp s op) rest := rfl
    rw [hstep]
    cases op with
    | putOp now c =>
      have := hnoput _ (List.mem_cons_self _ _)
      simp [StoreOp.isPut] at this
    | getOp i =>
      exact ih s u hrest hu
    | markOp now c r =>
      obtain ⟨u₁, hu₁, hle₁⟩ := used_mono_step s now c r id u hu
      obtain ⟨u', hu', hle'⟩ := ih (s.mark_used now c r) u₁ hrest hu₁
      exact ⟨u', hu', le_trans hle₁ hle'⟩

/-- Counterexample to C5 as stated: `put` is among the listed store
operations, and a second `put` of the original (unused) record under the
same id drops the stored `used` counter from 1 back to 0. -/
theorem used_counter_monotonic_counterexample :
    ((dictGet? ((FileConfirmationStore.init.put 0 cEx).mark_used 1 cEx
        JValue.null).db "x").map RawConfirmation.used = some 1)
  ∧ ((dictGet? (((FileConfirmationStore.init.put 0 cEx).mark_used 1 cEx
        JValue.null).put 2 cEx).db "x").map RawConfirmation.used = some 0) :=
  ⟨rfl, rfl⟩

/-- C5 (amended): each `mark_used` on a present id increases the stored
`used` by exactly one, and across any sequence of `get`/`mark_used`
operations (no overwriting `put`) every stored `used` counter never
decreases; a `put` under an existing id may reset it. -/
theorem used_counter_monotonic (s : FileConfirmationStore) (now : Int)
    (c : Confirmation) (result : JValue) (raw : RawConfirmation)
    (hfound : dictGet? s.db c.confirmation_id = some raw)
    (ops : List StoreOp) (hnoput : ∀ op ∈ ops, op.isPut = false)
    (id : String) (u u' : Int)
    (hu : (dictGet? s.db id).map RawConfirmation.used = some u)
    (hu' : (dictGet? (applyOps s ops).db id).map RawConfirmation.used = some u') :
    ((dictGet? (s.mark_used now c result).db c.confirmation_id).map RawConfirmation.used
        = some (raw.used + 1))
  ∧ u ≤ u' := by
  refine ⟨mark_used_increments_found s now c result raw hfound, ?_⟩
  obtain ⟨u₁, hu₁, hle⟩ := used_mono_ops ops id s u hnoput hu
  rw [hu'] at hu₁
  have : u' = u₁ := Option.some.inj hu₁
  omega

/-- Witness for C5 (amended): on a stored fresh record, `mark_used` takes the
stored counter from 0 to 1, and a `put`-free sequence never lowers it. -/
theorem used_counter_monotonic_witness :
    ((dictGet? ((FileConfirmationStore.init.put 0 cEx).mark_used 1 cEx
        JValue.null).db cEx.confirmation_id).map RawConfirmation.used
      = some (cEx.asdict.used + 1))
  ∧ (0 : Int) ≤ 1 :=
  used_counter_monotonic (FileConfirmationStore.init.put 0 cEx) 1 cEx JValue.null
    cEx.asdict rfl [StoreOp.markOp 1 cEx JValue.null] (by decide) "x" 0 1 rfl rfl

/-- Splitting at a newline separator is unambiguous when the part before the
separator is newline-free. -/
theorem append_nl_inj (a : List Char) :
    ∀ (b r t : List Char), '\n' ∉ a → '\n' ∉ b →
      a ++ '\n' :: r = b ++ '\n' :: t → a = b ∧ r = t := by
  induction a with
  | nil =>
    intro b r t _ hb h
    cases b with
    | nil => simpa using h
    | cons y ys =>
      exfalso
      simp only [List.nil_append, List.cons_append, List.cons.injEq] at h
      obtain ⟨h1, _⟩ := h
      subst h1
      exact hb (List.mem_cons_self _ _)
  | cons x xs ih =>
    intro b r t ha hb h
    cases b with
    | nil =>
      exfalso
      simp only [List.cons_append, List.nil_append, List.cons.injEq] at h
      obtain ⟨h1, _⟩ := h
      subst h1
      exact ha (List.mem_cons_self _ _)
    | cons y ys =>
      simp only [List.cons_append, List.cons.injEq] at h
      obtain ⟨hxy, h2⟩ := h
      have ha' : '\n' ∉ xs := fun hm => ha (List.mem_cons_of_mem _ hm)
      have hb' : '\n' ∉ ys := fun hm => hb (List.mem_cons_of_mem _ hm)
      obtain ⟨h3, h4⟩ := ih ys r t ha' hb' h2
      exact ⟨by rw [hxy, h3], h4⟩

/-- The newline join is injective on nonempty lists of newline-free chunks. -/
theorem joinNl_inj (xs : List (List Char)) :
    ∀ (ys : List (List Char)), xs ≠ [] → ys ≠ [] →
      (∀ l ∈ xs, '\n' ∉ l) → (∀ l ∈ ys, '\n' ∉ l) →
      joinNl xs = joinNl ys → xs = ys := by
  induction xs with
  | nil => intro ys hx; exact absurd rfl hx
  | cons x xr ih =>
    intro ys _ hy hxnl hynl h
    cases ys with
    | nil => exact absurd rfl hy
    | cons y yr =>
      cases xr with
      | nil =>
        cases yr with
        | nil =>
          have h' : x = y := h
          rw [h']
        | cons y' yr' =>
          exfalso
          have hx' : '\n' ∉ x := hxnl x (List.mem_cons_self _ _)
          have h1 : joinNl [x] = x := rfl
          rw [h1] at h
          have hmem : '\n' ∈ joinNl (y :: y' :: yr') := by
            simp [joinNl]
          rw [← h] at hmem
          exact hx' hmem
      | cons x' xr' =>
        cases yr with
        | nil =>
          exfalso
          have hy' : '\n' ∉ y := hynl y (List.mem_cons_self _ _)
          have h1 : joinNl [y] = y := rfl
          rw [h1] at h
          have hmem : '\n' ∈ joinNl (x :: x' :: xr') := by
            simp [joinNl]
          rw [h] at hmem
          exact hy' hmem
        | cons y' yr' =>
          have hx' : '\n' ∉ x := hxnl x (List.mem_cons_self _ _)
          have hy' : '\n' ∉ y := hynl y (List.mem_cons_self _ _)
          have h' : x ++ '\n' :: joinNl (x' :: xr') = y ++ '\n' :: joinNl (y' :: yr') := by
            simpa [joinNl] using h
          obtain ⟨hxy, hJ⟩ :=
            append_nl_inj x y (joinNl (x' :: xr')) (joinNl (y' :: yr')) hx' hy' h'
          have hrec := ih (y' :: yr') (by simp) (by simp)
            (fun l hl => hxnl l (List.mem_cons_of_mem _ hl))
            (fun l hl => hynl l (List.mem_cons_of_mem _ hl)) hJ
          rw [hxy, hrec]

/-- `stable_cmd_text` seen on the underlying character lists is `joinNl`. -/
theorem stable_cmd_text_data (xs : List String) :
    (stable_cmd_text xs).data = joinNl (xs.map String.data) := by
  induction xs with
  | nil => rfl
  | cons s rest ih =>
    cases rest with
    | nil => rfl
    | cons r rest' =>
      show (s ++ "\n" ++ stable_cmd_text (r :: rest')).data
          = joinNl ((s :: r :: rest').map String.data)
      rw [String.data_append, String.data_append, ih]
      simp [joinNl]

/-- `stable_cmd_text` is injective on nonempty argument vectors whose
arguments contain no newline character. -/
theorem stable_cmd_text_inj (xs ys : List String) (hx : xs ≠ []) (hy : ys ≠ [])
    (hxnl : ∀ s ∈ xs, '\n' ∉ s.data) (hynl : ∀ s ∈ ys, '\n' ∉ s.data)
    (h : stable_cmd_text xs = stable_cmd_text ys) : xs = ys := by
  have hd : joinNl (xs.map String.data) = joinNl (ys.map String.data) := by
    rw [← stable_cmd_text_data, ← stable_cmd_text_data, h]
  have hmaps := joinNl_inj (xs.map String.data) (ys.map String.data)
    (by simpa using hx) (by simpa using hy)
    (by
      intro l hl
      obtain ⟨t, ht, rfl⟩ := List.mem_map.1 hl
      exact hxnl t ht)
    (by
      intro l hl
      obtain ⟨t, ht, rfl⟩ := List.mem_map.1 hl
      exact hynl t ht) hd
  exact List.map_injective_iff.2 (fun a b hab => String.ext hab) hmaps

/-- Counterexample to C6 as stated: for the injective digest `id`, the two
distinct argument vectors that differ only in whether a newline is inside
one argument or separates two arguments fingerprint identically, because the
newline-joined stable text of both is the same string. -/
theorem fingerprint_unambiguous_counterexample :
    Function.Injective (fun s : String => s)
  ∧ (["a\nb"] : List String) ≠ ["a", "b"]
  ∧ command_hash (fun s => s) ["a\nb"] = command_hash (fun s => s) ["a", "b"] :=
  ⟨fun _ _ h => h, by decide, by decide⟩

/-- C6 (amended): for an injective digest, any two distinct nonempty
argument vectors whose arguments contain no newline character produce
different fingerprints; in particular the pair differing only by a space
inside one argument versus an argument boundary fingerprints differently. -/
theorem fingerprint_unambiguous (digest : String → String)
    (hinj : Function.Injective digest) (xs ys : List String)
    (hx : xs ≠ []) (hy : ys ≠ [])
    (hxnl : ∀ s ∈ xs, '\n' ∉ s.data) (hynl : ∀ s ∈ ys, '\n' ∉ s.data)
    (hne : xs ≠ ys) :
    command_hash digest xs ≠ command_hash digest ys
  ∧ command_hash digest ["commit", "-m", "a b"]
      ≠ command_hash digest ["commit", "-m", "a", "b"] := by
  constructor
  · intro h
    exact hne (stable_cmd_text_inj xs ys hx hy hxnl hynl (hinj h))
  · intro h
    exact absurd (hinj h) (by decide)

/-- Witness for C6 (amended) with the identity digest and the spec's
concrete pair of argument vectors. -/
theorem fingerprint_unambiguous_witness :
    command_hash (fun s : String => s) ["commit", "-m", "a b"]
      ≠ command_hash (fun s : String => s) ["commit", "-m", "a", "b"] :=
  (fingerprint_unambiguous (fun s => s) (fun _ _ h => h)
    ["commit", "-m", "a b"] ["commit", "-m", "a", "b"]
    (by decide) (by decide) (by decide) (by decide) (by decide)).1

/-- The audit log of the interrupted-`put` state. -/
theorem putMapWrite_auditLog (s : FileConfirmationStore) (c : Confirmation) :
    (s.putMapWrite c).auditLog = s.auditLog := rfl

/-- The interrupted `mark_used` on an absent id changes nothing. -/
theorem markMapWrite_of_missing (s : FileConfirmationStore) (c : Confirmation)
    (h : dictGet? s.db c.confirmation_id = none) :
    s.markMapWrite c = s := by
  unfold FileConfirmationStore.markMapWrite
  rw [h]

/-- The interrupted `mark_used` on a present id updates only the durable
map. -/
theorem markMapWrite_of_found (s : FileConfirmationStore) (c : Confirmation)
    (raw : RawConfirmation) (h : dictGet? s.db c.confirmation_id = some raw) :
    s.markMapWrite c =
      ⟨dictInsert s.db c.confirmation_id { raw with used := raw.used + 1 },
       s.auditLog⟩ := by
  unfold FileConfirmationStore.markMapWrite
  rw [h]

/-- `proposedIn` over an appended audit line. -/
theorem proposedIn_append (log : List AuditLine) (a : AuditLine) (id : String) :
    proposedIn (log ++ [a]) id
      = (proposedIn log id || (a.action == "proposed" && a.confirmation_id == id)) := by
  simp [proposedIn, List.any_append]

/-- C8: in every store state reachable by completed or interrupted calls,
a `"proposed"` audit line for a `confirmation_id` implies that id has a
matching record in the durable map — `put` appends the audit line only
after the durable-map write has completed. -/
theorem proposed_implies_durable (s : FileConfirmationStore) (h : Reach s)
    (id : String) (hp : proposedIn s.auditLog id = true) :
    (dictGet? s.db id).isSome = true := by
  revert hp
  induction h with
  | initial =>
    intro hp
    simp [proposedIn, FileConfirmationStore.init] at hp
  | put_complete now c _ ih =>
    intro hp
    rw [put_auditLog, proposedIn_append, Bool.or_eq_true] at hp
    rw [put_db]
    rcases hp with hp | hp
    · exact dictGet?_dictInsert_isSome _ _ _ _ (ih hp)
    · have : c.confirmation_id = id := by simpa using hp
      rw [← this, dictGet?_dictInsert_self]
      rfl
  | put_interrupted c _ ih =>
    intro hp
    rw [putMapWrite_auditLog] at hp
    exact dictGet?_dictInsert_isSome _ _ _ _ (ih hp)
  | mark_complete now c result _ ih =>
    intro hp
    rename_i s' _
    cases hfind : dictGet? s'.db c.confirmation_id with
    | none =>
      rw [mark_used_of_missing s' now c result hfind] at hp ⊢
      exact ih hp
    | some raw =>
      rw [mark_used_of_found s' now c result raw hfind] at hp ⊢
      rw [show (FileConfirmationStore.mk
            (dictInsert s'.db c.confirmation_id { raw with used := raw.used + 1 })
            (s'.auditLog ++ [⟨now, "executed", c.confirmation_id,
              [("result", result)]⟩])).auditLog
          = s'.auditLog ++ [⟨now, "executed", c.confirmation_id, [("result", result)]⟩]
        from rfl, proposedIn_append] at hp
      have hp' : proposedIn s'.auditLog id = true := by simpa using hp
      exact dictGet?_dictInsert_isSome _ _ _ _ (ih hp')
  | mark_interrupted c _ ih =>
    intro hp
    rename_i s' _
    cases hfind : dictGet? s'.db c.confirmation_id with
    | none =>
      rw [markMapWrite_of_missing s' c hfind] at hp ⊢
      exact ih hp
    | some raw =>
      rw [markMapWrite_of_found s' c raw hfind] at hp ⊢
      exact dictGet?_dictInsert_isSome _ _ _ _ (ih hp)

/-- Witness for C8: after a completed `put` from the fresh store, the
`"proposed"` line's id is durably present. -/
theorem proposed_implies_durable_witness :
    (dictGet? (FileConfirmationStore.init.put 0 cEx).db "x").isSome = true :=
  proposed_implies_durable (FileConfirmationStore.init.put 0 cEx)
    (Reach.put_complete 0 cEx Reach.initial) "x" (by decide)

end GroundedGitMcp
